import Mathlib

/-!
Verification of the URL-resolution and download pipeline of
`redditdownload.py` (RedditImageGrab).

Strings of the Python program are modelled as `List Char`.  HTTP
responses, the paginated feed and the destination directory are
modelled explicitly, so that every function below is a direct shallow
embedding of the corresponding Python function.  Network transport is
an oracle: each URL is mapped to the response (or transport exception)
that `urllib2.urlopen` produces for it during the run.
-/

/-- Python `os.path.basename` for POSIX paths: the part of the string
after the last slash (the whole string when no slash occurs). -/
def basename (p : List Char) : List Char :=
  (p.reverse.takeWhile (fun c => c != '/')).reverse

/-- Python `os.path.splitext` on a basename: split off the extension at
the last dot, except that leading dots of the name never begin an
extension, so `splitext ".jpg" = (".jpg", "")` and
`splitext "a.txt" = ("a", ".txt")`. -/
def splitext (b : List Char) : List Char × List Char :=
  let r := b.reverse
  match r.dropWhile (fun c => c != '.') with
  | [] => (b, [])
  | _ :: beforeRev =>
    if beforeRev.any (fun c => c != '.') then
      (beforeRev.reverse, '.' :: (r.takeWhile (fun c => c != '.')).reverse)
    else (b, [])

/-- Python `os.path.join(a, b)` for POSIX paths with two components. -/
def pathJoin (a b : List Char) : List Char :=
  if b.head? = some '/' then b
  else if a = [] then a ++ b
  else if a.getLast? = some '/' then a ++ b
  else a ++ '/' :: b

/-- Python's substring test `pat in s`. -/
def hasSubstr (pat : List Char) : List Char → Bool
  | [] => pat.isEmpty
  | c :: rest => pat.isPrefixOf (c :: rest) || hasSubstr pat rest

/-- Fuel-indexed worker for `replaceAll`.  The fuel is always at least
the length of the remaining input, so the zero-fuel case is never
reached from `replaceAll`. -/
def replaceGo (pat rep : List Char) : Nat → List Char → List Char
  | 0, s => s
  | _ + 1, [] => []
  | fuel + 1, c :: rest =>
    if pat ≠ [] ∧ pat.isPrefixOf (c :: rest) = true then
      rep ++ replaceGo pat rep fuel ((c :: rest).drop pat.length)
    else
      c :: replaceGo pat rep fuel rest

/-- Python `s.replace(pat, rep)` for a nonempty `pat` (here always
`".png"`): replace every non-overlapping occurrence of `pat`, scanning
left to right. -/
def replaceAll (pat rep s : List Char) : List Char := replaceGo pat rep s.length s

/-- The literal part `"hash":"` of the album-page regex
`\"hash\":\"(.[^\"]*)\"` of `_extractImgurAlbumUrls`. -/
def hashLit : List Char := ['"', 'h', 'a', 's', 'h', '"', ':', '"']

/-- Characters matched by `[^"]` inside one line of the album page.  A
line carries a newline only as its final character, so additionally
excluding `'\n'` (which `[^"]` alone would admit) never changes which
matches are found on a line: a match would still need a closing quote
after the newline, and there is no such character left on the line. -/
def isTokenChar (c : Char) : Bool := c != '"' && c != '\n'

/-- One attempt of the album regex at the head of `s`: the literal
`"hash":"`, one group character (`.`: anything but a newline), the
longest run of `[^"]` characters, and the closing quote.  Returns the
captured group together with the input following the whole match. -/
def tryMatch (s : List Char) : Option (List Char × List Char) :=
  if hashLit.isPrefixOf s = true then
    match s.drop 8 with
    | [] => none
    | d :: rest2 =>
      if d = '\n' then none
      else if (rest2.dropWhile isTokenChar).head? = some '"' then
        some (d :: rest2.takeWhile isTokenChar, (rest2.dropWhile isTokenChar).tail)
      else none
  else none

/-- Fuel-indexed worker for `scanTokens`. -/
def scanGo : Nat → List Char → List (List Char)
  | 0, _ => []
  | _ + 1, [] => []
  | fuel + 1, c :: rest =>
    match tryMatch (c :: rest) with
    | some (tok, tail) => tok :: scanGo fuel tail
    | none => scanGo fuel rest

/-- Python `re.findall` of the album regex on `s`: the captured groups of all
non-overlapping matches, found left to right. -/
def scanTokens (s : List Char) : List (List Char) := scanGo s.length s

/-- Python `fp.readlines()`: split into lines, each keeping its
terminating newline. -/
def readlines : List Char → List (List Char)
  | [] => []
  | c :: rest =>
    if c = '\n' then ['\n'] :: readlines rest
    else
      match readlines rest with
      | [] => [[c]]
      | l :: ls => (c :: l) :: ls

/-- The accumulation loop of `_extractImgurAlbumUrls` (lines 42-47):
run `findall` on each line and append the results to `items`; an empty
result list is skipped by `continue`, which leaves `items` unchanged. -/
def collectItems (acc : List (List Char)) : List (List Char) → List (List Char)
  | [] => acc
  | line :: rest =>
    let results := scanTokens line
    if results = [] then collectItems acc rest
    else collectItems (acc ++ results) rest

/-- The list-comprehension template `'http://i.imgur.com/%s.jpg' % hash`. -/
def mkImgurUrl (hash : List Char) : List Char :=
  ("http://i.imgur.com/").toList ++ hash ++ (".jpg").toList

/-- An HTTP response: the declared content-type header, when present,
and the body. -/
structure HttpResponse where
  contentType : Option (List Char)
  body : List Char
deriving DecidableEq

/-- The guard of `_extractImgurAlbumUrls` (line 31):
`'content-type' in info and not info['content-type'].startswith('text/html')`. -/
def nonHtmlDeclared (ct : Option (List Char)) : Bool :=
  match ct with
  | some t => !(("text/html").toList.isPrefixOf t)
  | none => false

/-- Embedding of `_extractImgurAlbumUrls`, as a function of the fetched
response for the album URL. -/
def extractImgurAlbumUrls (resp : HttpResponse) : List (List Char) :=
  if nonHtmlDeclared resp.contentType = true then []
  else (collectItems [] (readlines resp.body)).map mkImgurUrl

/-- Embedding of `_processImgurUrl`; the album branch delegates to the given
expansion function (in the program, `_extractImgurAlbumUrls` applied to
the response fetched for the album URL). -/
def processImgurUrl (expandAlbum : List Char → List (List Char)) (url : List Char) :
    List (List Char) :=
  if hasSubstr ("imgur.com/a/").toList url = true then expandAlbum url
  else if ((".png").toList.isSuffixOf url) = true then
    [replaceAll (".png").toList (".jpg").toList url]
  else if (splitext (basename url)).2 = [] then [url ++ (".jpg").toList]
  else [url]

/-- Embedding of `_extractUrls`. -/
def extractUrls (expandAlbum : List Char → List (List Char)) (url : List Char) :
    List (List Char) :=
  if hasSubstr ("imgur.com").toList url = true then processImgurUrl expandAlbum url
  else [url]

/-- Result of `urllib2.urlopen(url)`: a response, or one of the
transport exceptions that the main loop catches. -/
inductive FetchResult where
  | response : HttpResponse → FetchResult
  | httpError : FetchResult
  | urlError : FetchResult
  | invalidUrl : FetchResult
deriving DecidableEq

/-- Outcome of `_downloadFromUrl`: the returned filename, one of its
two own exceptions, or a propagated transport exception. -/
inductive DlResult where
  | ok : List Char → DlResult
  | wrongFileType : DlResult
  | fileExists : DlResult
  | httpError : DlResult
  | urlError : DlResult
  | invalidUrl : DlResult
deriving DecidableEq

/-- The destination directory: the files it contains, as
(path, content) pairs. -/
abbrev DirState := List (List Char × List Char)

/-- Python `os.path.exists` within the modelled directory. -/
def dirHasPath (fs : DirState) (p : List Char) : Bool :=
  fs.any (fun e => e.1 == p)

/-- Lines 77-87 of `_downloadFromUrl`: the file type, taken from the
declared content-type header when present, otherwise inferred from the
URL extension, otherwise `unknown`. -/
def resolvedFiletype (ct : Option (List Char)) (url : List Char) : List Char :=
  match ct with
  | some t => t
  | none =>
    if ((".jpg").toList.isSuffixOf url || (".jpeg").toList.isSuffixOf url) = true then
      ("image/jpeg").toList
    else if ((".png").toList.isSuffixOf url) = true then ("image/png").toList
    else if ((".gif").toList.isSuffixOf url) = true then ("image/gif").toList
    else ("unknown").toList

/-- The accepted image types (line 90). -/
def acceptedTypes : List (List Char) :=
  [("image/jpeg").toList, ("image/png").toList, ("image/gif").toList]

/-- Embedding of `_downloadFromUrl`, as a function of the fetch result
for `url`.
Returns the outcome together with the directory contents after the
call; the body is written only after the type check and the existence
check have both passed. -/
def downloadFromUrl (r : FetchResult) (url destDir : List Char) (fs : DirState) :
    DlResult × DirState :=
  match r with
  | .httpError => (.httpError, fs)
  | .urlError => (.urlError, fs)
  | .invalidUrl => (.invalidUrl, fs)
  | .response resp =>
    if acceptedTypes.contains (resolvedFiletype resp.contentType url) = true then
      let filename := pathJoin destDir (basename url)
      if dirHasPath fs filename = true then (.fileExists, fs)
      else (.ok filename, (filename, resp.body) :: fs)
    else (.wrongFileType, fs)

/-- One posting of the feed (the fields the program reads). -/
structure FeedItem where
  id : List Char
  url : List Char
  title : List Char
  score : Int
  over18 : Bool
deriving DecidableEq

/-- The parsed command-line arguments (lines 142-153).  The compiled
title regex is modelled by its matching function (`re.match`, anchored
at the start of the title); `none` models an absent `--regex`. -/
structure CliArgs where
  last : List Char
  score : Int
  num : Int
  update : Bool
  sfw : Bool
  nsfw : Bool
  regex : Option (List Char → Bool)

/-- The run's external collaborators: the feed (`reddit.getitems`, the
subreddit being fixed for the whole run) and the network.  `fetch`
gives `urllib2.urlopen`'s result for a download URL; `albumResponse`
gives the response for a gallery GET.  A transport failure during a
gallery GET is not caught anywhere in the program (it would abort the
process) and no claim concerns it, so the gallery oracle always yields
a response. -/
structure NetEnv where
  getitems : List Char → List FeedItem
  fetch : List Char → FetchResult
  albumResponse : List Char → HttpResponse

/-- The filter chain of the item loop (lines 180-203).  `true` means
the item is skipped. -/
def filterReject (args : CliArgs) (p : FeedItem) : Bool :=
  if p.score < args.score then true
  else if args.sfw && p.over18 then true
  else if args.nsfw && !p.over18 then true
  else
    match args.regex with
    | some m => !(m p.title)
    | none => false

/-- The mutable state of the `__main__` loop: the five counters, the
finished flag, the cursor, and the destination directory.  The two
final fields are observation-only instrumentation recording which items
reached URL resolution and which URLs were handed to the content
fetcher; they are appended to and never read by the loop. -/
structure RunState where
  nTotal : Nat
  nDownloaded : Nat
  nErrors : Nat
  nSkipped : Nat
  nFailed : Nat
  bFinished : Bool
  lastId : List Char
  fs : DirState
  resolvedPosts : List (List Char)
  fetchedUrls : List (List Char)
deriving DecidableEq

/-- The resolver `_extractUrls` as invoked by the loop: the album branch fetches the
album page through the environment. -/
def extractUrlsEnv (env : NetEnv) (url : List Char) : List (List Char) :=
  extractUrls (fun a => extractImgurAlbumUrls (env.albumResponse a)) url

/-- The `for url in _extractUrls(...)` loop with its try/except
dispatch (lines 205-234).  A download reaching the configured target
count, or a duplicate in update mode, sets `bFinished` and breaks. -/
def processUrls (env : NetEnv) (args : CliArgs) (destDir : List Char) :
    RunState → List (List Char) → RunState
  | s, [] => s
  | s, url :: rest =>
    let s0 := { s with fetchedUrls := s.fetchedUrls ++ [url] }
    match downloadFromUrl (env.fetch url) url destDir s0.fs with
    | (.ok _, fs') =>
      let s1 := { s0 with nDownloaded := s0.nDownloaded + 1, fs := fs' }
      if 0 < args.num ∧ args.num ≤ (s1.nDownloaded : Int) then { s1 with bFinished := true }
      else processUrls env args destDir s1 rest
    | (.wrongFileType, fs') =>
      processUrls env args destDir { s0 with nSkipped := s0.nSkipped + 1, fs := fs' } rest
    | (.fileExists, fs') =>
      let s1 := { s0 with nErrors := s0.nErrors + 1, fs := fs' }
      if args.update = true then { s1 with bFinished := true }
      else processUrls env args destDir s1 rest
    | (.httpError, fs') =>
      processUrls env args destDir { s0 with nFailed := s0.nFailed + 1, fs := fs' } rest
    | (.urlError, fs') =>
      processUrls env args destDir { s0 with nFailed := s0.nFailed + 1, fs := fs' } rest
    | (.invalidUrl, fs') =>
      processUrls env args destDir { s0 with nFailed := s0.nFailed + 1, fs := fs' } rest

/-- The body of `for post in postings` for one item (lines 177-234):
count it, apply the filters, and otherwise resolve and download its
URLs. -/
def processPost (env : NetEnv) (args : CliArgs) (destDir : List Char)
    (s : RunState) (p : FeedItem) : RunState :=
  let s1 := { s with nTotal := s.nTotal + 1 }
  if filterReject args p = true then { s1 with nSkipped := s1.nSkipped + 1 }
  else
    let s2 := { s1 with resolvedPosts := s1.resolvedPosts ++ [p.id] }
    processUrls env args destDir s2 (extractUrlsEnv env p.url)

/-- The `for post in postings` loop followed by `lastId = post['id']`
(lines 177-239).  The source assigns the cursor once, after the loop,
from the leaked loop variable; since nothing reads the cursor while the
page is being processed, recording the current item's id at the end of
each iteration leaves every observable value unchanged and yields the
same final state. -/
def processPosts (env : NetEnv) (args : CliArgs) (destDir : List Char) :
    RunState → List FeedItem → RunState
  | s, [] => s
  | s, p :: rest =>
    let s' := { processPost env args destDir s p with lastId := p.id }
    if s'.bFinished = true then s' else processPosts env args destDir s' rest

/-- The `while not bFinished` loop (lines 171-239), indexed by the
number of page fetches still allowed (the loop need not terminate for
an arbitrary feed, so a run is observed through an arbitrary fuel). -/
def runLoop (env : NetEnv) (args : CliArgs) (destDir : List Char) :
    Nat → RunState → RunState
  | 0, s => s
  | fuel + 1, s =>
    if s.bFinished = true then s
    else
      match env.getitems s.lastId with
      | [] => s
      | p :: ps => runLoop env args destDir fuel (processPosts env args destDir s (p :: ps))

/-- The state at line 171: counters zero, flag clear, cursor from
`--last`, and whatever files the destination directory already holds. -/
def initState (args : CliArgs) (fs0 : DirState) : RunState :=
  { nTotal := 0, nDownloaded := 0, nErrors := 0, nSkipped := 0, nFailed := 0,
    bFinished := false, lastId := args.last, fs := fs0,
    resolvedPosts := [], fetchedUrls := [] }

/-! ### Concrete fixtures

Closed data used by the concrete instantiations of the theorems
below. -/

/-- A destination directory name for the concrete runs. -/
def destDl : List Char := ("dl").toList

/-- Arguments `--num 1`. -/
def argsNum1 : CliArgs :=
  { last := [], score := 0, num := 1, update := false, sfw := false,
    nsfw := false, regex := none }

/-- Arguments `--update`. -/
def argsUpdate : CliArgs :=
  { last := [], score := 0, num := 0, update := true, sfw := false,
    nsfw := false, regex := none }

/-- Arguments `--score 5`. -/
def argsScore5 : CliArgs :=
  { last := [], score := 5, num := 0, update := false, sfw := false,
    nsfw := false, regex := none }

/-- A JPEG response with an empty body. -/
def jpegResp : HttpResponse := ⟨some (("image/jpeg").toList), []⟩

/-- An HTML album page declaring four image hashes. -/
def albumPage : HttpResponse :=
  ⟨some (("text/html").toList),
    ("\"hash\":\"h1\",\n\"hash\":\"h2\",\n\"hash\":\"h3\",\n\"hash\":\"h4\"").toList⟩

/-- A direct-link item with a high score. -/
def postA : FeedItem :=
  { id := ("a1").toList, url := ("http://example.com/a.jpg").toList,
    title := ("first").toList, score := 10, over18 := false }

/-- A direct-link item with score 1. -/
def postB : FeedItem :=
  { id := ("b2").toList, url := ("http://example.com/b.jpg").toList,
    title := ("second").toList, score := 1, over18 := false }

/-- A direct-link item with score 2. -/
def postC : FeedItem :=
  { id := ("d4").toList, url := ("http://example.com/c.jpg").toList,
    title := ("third").toList, score := 2, over18 := false }

/-- An item whose URL is an imgur album. -/
def postAlbum : FeedItem :=
  { id := ("c3").toList, url := ("http://imgur.com/a/xyz").toList,
    title := ("album").toList, score := 10, over18 := false }

/-- Environment with one page of two direct-link items; every download
fetch yields a JPEG response. -/
def envNum1 : NetEnv :=
  { getitems := fun _ => [postA, postB],
    fetch := fun _ => .response jpegResp,
    albumResponse := fun _ => albumPage }

/-- Environment with one page holding the album item (which resolves to
four URLs) followed by a direct-link item. -/
def envUpdate : NetEnv :=
  { getitems := fun _ => [postAlbum, postB],
    fetch := fun _ => .response jpegResp,
    albumResponse := fun _ => albumPage }

/-- A destination directory that already holds `dl/h3.jpg`, the file
the third album URL of `envUpdate` resolves to. -/
def fsSeed : DirState := [(("dl/h3.jpg").toList, [])]

/-! ### Scanning lemmas

The album page is scanned line by line, but the matches of the regex
never straddle a line boundary, so the per-line scan of
`_extractImgurAlbumUrls` finds exactly the tokens a single left-to-right
scan of the whole document finds, in the same order.  The lemmas below
establish this. -/

lemma dropWhile_append_cons {p : Char → Bool} {a : List Char} {q : Char} {tl : List Char}
    (h : a.dropWhile p = q :: tl) (b : List Char) :
    (a ++ b).dropWhile p = q :: (tl ++ b) := by
  induction a with
  | nil => simp at h
  | cons x xs ih =>
    by_cases hx : p x
    · rw [List.dropWhile_cons_of_pos hx] at h
      simpa [List.dropWhile_cons_of_pos hx] using ih h
    · rw [List.dropWhile_cons_of_neg hx] at h
      cases h
      simp [List.dropWhile_cons_of_neg hx]

lemma takeWhile_append_eq {p : Char → Bool} {a : List Char} {q : Char} {tl : List Char}
    (h : a.dropWhile p = q :: tl) (b : List Char) :
    (a ++ b).takeWhile p = a.takeWhile p := by
  induction a with
  | nil => simp at h
  | cons x xs ih =>
    by_cases hx : p x
    · rw [List.dropWhile_cons_of_pos hx] at h
      simp [List.takeWhile_cons_of_pos hx, ih h]
    · simp [List.takeWhile_cons_of_neg hx]

lemma dropWhile_append_nil {p : Char → Bool} {a : List Char} (h : a.dropWhile p = [])
    (b : List Char) : (a ++ b).dropWhile p = b.dropWhile p := by
  induction a with
  | nil => simp
  | cons x xs ih =>
    by_cases hx : p x
    · rw [List.dropWhile_cons_of_pos hx] at h
      simp [List.dropWhile_cons_of_pos hx, ih h]
    · rw [List.dropWhile_cons_of_neg hx] at h
      simp at h

lemma dropWhile_nil_forall {p : Char → Bool} :
    ∀ {a : List Char}, a.dropWhile p = [] → ∀ c ∈ a, p c = true := by
  intro a
  induction a with
  | nil => intro _ c hc; simp at hc
  | cons x xs ih =>
    intro h c hc
    by_cases hx : p x
    · rw [List.dropWhile_cons_of_pos hx] at h
      rcases List.mem_cons.mp hc with rfl | hc'
      · exact hx
      · exact ih h c hc'
    · rw [List.dropWhile_cons_of_neg hx] at h
      simp at h

lemma dropWhile_head_false {p : Char → Bool} :
    ∀ {a : List Char} {q : Char} {tl : List Char}, a.dropWhile p = q :: tl → p q = false := by
  intro a
  induction a with
  | nil => intro q tl h; simp at h
  | cons x xs ih =>
    intro q tl h
    by_cases hx : p x
    · rw [List.dropWhile_cons_of_pos hx] at h
      exact ih h
    · rw [List.dropWhile_cons_of_neg hx] at h
      cases h
      simpa using hx

lemma isPrefixOf_append {pat a : List Char} (h : pat.isPrefixOf a = true) (b : List Char) :
    pat.isPrefixOf (a ++ b) = true := by
  rw [List.isPrefixOf_iff_prefix] at h ⊢
  exact h.trans (List.prefix_append a b)

lemma isPrefixOf_barrier {pat : List Char} {x : Char} (hx : x ∉ pat) :
    ∀ {a r : List Char}, pat.isPrefixOf (a ++ x :: r) = true → pat.isPrefixOf a = true := by
  induction pat with
  | nil => intro a r _; cases a <;> simp [List.isPrefixOf]
  | cons pc ps ih =>
    intro a r h
    cases a with
    | nil =>
      rw [List.nil_append] at h
      simp only [List.isPrefixOf, Bool.and_eq_true, beq_iff_eq] at h
      exact absurd (by rw [← h.1]; exact List.mem_cons_self pc ps) hx
    | cons ac as =>
      simp only [List.cons_append, List.isPrefixOf, Bool.and_eq_true, beq_iff_eq] at h ⊢
      exact ⟨h.1, ih (fun hm => hx (List.mem_cons_of_mem _ hm)) h.2⟩

lemma isPrefixOf_length {pat a : List Char} (h : pat.isPrefixOf a = true) :
    pat.length ≤ a.length := by
  rw [List.isPrefixOf_iff_prefix] at h
  exact h.length_le

lemma drop_append_of_le {n : Nat} {a : List Char} (h : n ≤ a.length) (b : List Char) :
    (a ++ b).drop n = a.drop n ++ b := by
  induction n generalizing a with
  | zero => simp
  | succ n ih =>
    cases a with
    | nil => simp at h
    | cons x xs => simpa using ih (Nat.le_of_succ_le_succ h)

lemma tryMatch_some_elim {s tok tail : List Char} (h : tryMatch s = some (tok, tail)) :
    hashLit.isPrefixOf s = true ∧
      ∃ d rest2, s.drop 8 = d :: rest2 ∧ d ≠ '\n' ∧
        (rest2.dropWhile isTokenChar).head? = some '"' ∧
        tok = d :: rest2.takeWhile isTokenChar ∧
        tail = (rest2.dropWhile isTokenChar).tail := by
  unfold tryMatch at h
  split at h
  · rename_i hp
    split at h
    · simp at h
    · rename_i d rest2 hd8
      split at h
      · simp at h
      · rename_i hdnl
        split at h
        · rename_i hq
          simp only [Option.some.injEq, Prod.mk.injEq] at h
          exact ⟨hp, d, rest2, hd8, hdnl, hq, h.1.symm, h.2.symm⟩
        · simp at h
  · simp at h

lemma tryMatch_some_intro {s : List Char} {d : Char} {rest2 : List Char}
    (hp : hashLit.isPrefixOf s = true) (hd8 : s.drop 8 = d :: rest2)
    (hdnl : d ≠ '\n') (hq : (rest2.dropWhile isTokenChar).head? = some '"') :
    tryMatch s =
      some (d :: rest2.takeWhile isTokenChar, (rest2.dropWhile isTokenChar).tail) := by
  simp [tryMatch, hp, hd8, hdnl, hq]

lemma tryMatch_nl (r : List Char) : tryMatch ('\n' :: r) = none := by
  have hne : ('"' == '\n') = false := by decide
  have : hashLit.isPrefixOf ('\n' :: r) = false := by
    simp [hashLit, List.isPrefixOf, hne]
  simp [tryMatch, this]

lemma tryMatch_tail_lt {s tok tail : List Char} (h : tryMatch s = some (tok, tail)) :
    tail.length < s.length := by
  obtain ⟨hp, d, rest2, hd8, -, hq, -, htail⟩ := tryMatch_some_elim h
  have h8 : (8 : Nat) ≤ s.length := by
    have := isPrefixOf_length hp
    simpa [hashLit] using this
  have hh := congrArg List.length hd8
  simp only [List.length_drop, List.length_cons] at hh
  have hdw : (rest2.dropWhile isTokenChar).length ≤ rest2.length :=
    (List.dropWhile_suffix isTokenChar).sublist.length_le
  obtain ⟨ys, hys⟩ := List.head?_eq_some_iff.mp hq
  have hts : tail.length + 1 = (rest2.dropWhile isTokenChar).length := by
    rw [htail, hys]
    simp
  omega

lemma tryMatch_tail_subset {s tok tail : List Char} (h : tryMatch s = some (tok, tail)) :
    ∀ c ∈ tail, c ∈ s := by
  obtain ⟨hp, d, rest2, hd8, -, hq, -, htail⟩ := tryMatch_some_elim h
  intro c hc
  have h1 : c ∈ rest2.dropWhile isTokenChar := by
    rw [htail] at hc
    exact (List.tail_suffix _).subset hc
  have h2 : c ∈ rest2 := (List.dropWhile_suffix _).subset h1
  have h3 : c ∈ s.drop 8 := by
    rw [hd8]
    exact List.mem_cons_of_mem _ h2
  exact (List.drop_suffix 8 s).subset h3

lemma tryMatch_append {s tok tail : List Char} (h : tryMatch s = some (tok, tail))
    (b : List Char) : tryMatch (s ++ b) = some (tok, tail ++ b) := by
  obtain ⟨hp, d, rest2, hd8, hdnl, hq, htok, htail⟩ := tryMatch_some_elim h
  have h8 : (8 : Nat) ≤ s.length := by
    have := isPrefixOf_length hp
    simpa [hashLit] using this
  have hp' : hashLit.isPrefixOf (s ++ b) = true := isPrefixOf_append hp b
  have hd8' : (s ++ b).drop 8 = d :: (rest2 ++ b) := by
    rw [drop_append_of_le h8, hd8]
    rfl
  obtain ⟨ys, hys⟩ := List.head?_eq_some_iff.mp hq
  have hdw' : (rest2 ++ b).dropWhile isTokenChar = '"' :: (ys ++ b) :=
    dropWhile_append_cons hys b
  have htw : (rest2 ++ b).takeWhile isTokenChar = rest2.takeWhile isTokenChar :=
    takeWhile_append_eq hys b
  have hres := tryMatch_some_intro hp' hd8' hdnl (by rw [hdw']; rfl)
  rw [hres, htw, hdw']
  rw [htok, htail, hys]
  rfl

lemma tryMatch_barrier {l r tok tail : List Char}
    (h : tryMatch (l ++ '\n' :: r) = some (tok, tail)) :
    ∃ tl, tryMatch l = some (tok, tl) ∧ tail = tl ++ '\n' :: r := by
  obtain ⟨hp, d, rest2x, hd8, hdnl, hq, htok, htail⟩ := tryMatch_some_elim h
  have hnlh : '\n' ∉ hashLit := by decide
  have hpl : hashLit.isPrefixOf l = true := isPrefixOf_barrier hnlh hp
  have h8 : (8 : Nat) ≤ l.length := by
    have := isPrefixOf_length hpl
    simpa [hashLit] using this
  have hd8l : (l ++ '\n' :: r).drop 8 = l.drop 8 ++ '\n' :: r := drop_append_of_le h8 _
  cases hld : l.drop 8 with
  | nil =>
    rw [hld, List.nil_append] at hd8l
    rw [hd8l] at hd8
    have : d = '\n' := (List.cons.injEq _ _ _ _ ▸ hd8).1.symm
    exact absurd this hdnl
  | cons d0 rest2 =>
    rw [hld] at hd8l
    rw [hd8l] at hd8
    rw [List.cons_append] at hd8
    have hd0 : d0 = d := (List.cons.injEq _ _ _ _ ▸ hd8).1
    have hrest : rest2 ++ '\n' :: r = rest2x := (List.cons.injEq _ _ _ _ ▸ hd8).2
    subst hd0
    cases hdw : rest2.dropWhile isTokenChar with
    | nil =>
      have : rest2x.dropWhile isTokenChar = '\n' :: r := by
        rw [← hrest, dropWhile_append_nil hdw]
        rw [List.dropWhile_cons_of_neg (by simp [isTokenChar])]
      rw [this] at hq
      simp at hq
    | cons q tl =>
      have hdwx : rest2x.dropWhile isTokenChar = q :: (tl ++ '\n' :: r) := by
        rw [← hrest]
        exact dropWhile_append_cons hdw _
      have hqq : q = '"' := by
        rw [hdwx] at hq
        simpa using hq
      subst hqq
      have htwx : rest2x.takeWhile isTokenChar = rest2.takeWhile isTokenChar := by
        rw [← hrest]
        exact takeWhile_append_eq hdw _
      refine ⟨(rest2.dropWhile isTokenChar).tail, ?_, ?_⟩
      · rw [htok, htwx]
        exact tryMatch_some_intro hpl hld hdnl (by rw [hdw]; rfl)
      · rw [htail, hdwx, hdw]
        rfl

lemma scanGo_congr : ∀ (f1 f2 : Nat) (s : List Char), s.length ≤ f1 → s.length ≤ f2 →
    scanGo f1 s = scanGo f2 s := by
  intro f1
  induction f1 with
  | zero =>
    intro f2 s h1 _
    have hs : s = [] := List.length_eq_zero.mp (Nat.le_zero.mp h1)
    subst hs
    cases f2 <;> rfl
  | succ f1 ih =>
    intro f2 s h1 h2
    cases s with
    | nil => cases f2 <;> rfl
    | cons c rest =>
      cases f2 with
      | zero => simp at h2
      | succ f2 =>
        simp only [scanGo]
        cases h : tryMatch (c :: rest) with
        | none =>
          simp only [List.length_cons] at h1 h2
          exact ih f2 rest (by omega) (by omega)
        | some pr =>
          obtain ⟨tok, tail⟩ := pr
          have ht := tryMatch_tail_lt h
          simp only [List.length_cons] at h1 h2 ht
          show tok :: scanGo f1 tail = tok :: scanGo f2 tail
          rw [ih f2 tail (by omega) (by omega)]

lemma scanTokens_cons (c : Char) (rest : List Char) :
    scanTokens (c :: rest) =
      match tryMatch (c :: rest) with
      | some (tok, tail) => tok :: scanTokens tail
      | none => scanTokens rest := by
  show scanGo (c :: rest).length (c :: rest) = _
  simp only [List.length_cons, scanGo]
  cases h : tryMatch (c :: rest) with
  | none => rfl
  | some pr =>
    obtain ⟨tok, tail⟩ := pr
    have ht := tryMatch_tail_lt h
    simp only [List.length_cons] at ht
    show tok :: scanGo rest.length tail = tok :: scanTokens tail
    rw [scanGo_congr rest.length tail.length tail (by omega) (le_refl _)]
    rfl

lemma scanTokens_append_nl :
    ∀ (n : Nat) (l r : List Char), l.length ≤ n → '\n' ∉ l →
      scanTokens (l ++ '\n' :: r) = scanTokens l ++ scanTokens r := by
  intro n
  induction n with
  | zero =>
    intro l r h1 _
    have hs : l = [] := List.length_eq_zero.mp (Nat.le_zero.mp h1)
    subst hs
    rw [List.nil_append, scanTokens_cons]
    simp [tryMatch_nl]
    rfl
  | succ n ih =>
    intro l r hl hnl
    cases l with
    | nil =>
      rw [List.nil_append, scanTokens_cons]
      simp [tryMatch_nl]
      rfl
    | cons c l' =>
      rw [List.cons_append, scanTokens_cons]
      cases h : tryMatch (c :: (l' ++ '\n' :: r)) with
      | some pr =>
        obtain ⟨tok, tail⟩ := pr
        have h' : tryMatch ((c :: l') ++ '\n' :: r) = some (tok, tail) := by
          rw [List.cons_append]
          exact h
        obtain ⟨tl, hml, htl⟩ := tryMatch_barrier h'
        have hlt := tryMatch_tail_lt hml
        have hsub := tryMatch_tail_subset hml
        have hnl' : '\n' ∉ tl := fun hm => hnl (hsub _ hm)
        have hlen : tl.length ≤ n := by
          simp only [List.length_cons] at hlt hl
          omega
        rw [htl]
        show tok :: scanTokens (tl ++ '\n' :: r) = scanTokens (c :: l') ++ scanTokens r
        rw [ih tl r hlen hnl', scanTokens_cons c l', hml]
        rfl
      | none =>
        have hml : tryMatch (c :: l') = none := by
          cases hm : tryMatch (c :: l') with
          | none => rfl
          | some pr =>
            obtain ⟨tok, tail⟩ := pr
            have hext := tryMatch_append hm ('\n' :: r)
            rw [List.cons_append] at hext
            rw [hext] at h
            simp at h
        have hnl' : '\n' ∉ l' := fun hm => hnl (List.mem_cons_of_mem _ hm)
        have hlen : l'.length ≤ n := by
          simp only [List.length_cons] at hl
          omega
        show scanTokens (l' ++ '\n' :: r) = scanTokens (c :: l') ++ scanTokens r
        rw [ih l' r hlen hnl', scanTokens_cons c l', hml]

lemma readlines_no_nl {s : List Char} (h : '\n' ∉ s) :
    readlines s = if s.isEmpty then [] else [s] := by
  induction s with
  | nil => rfl
  | cons c rest ih =>
    have hc : ¬(c = '\n') := fun hc => h (hc ▸ List.mem_cons_self c rest)
    have hrest : '\n' ∉ rest := fun hm => h (List.mem_cons_of_mem _ hm)
    rw [readlines, if_neg hc, ih hrest]
    cases rest <;> simp

lemma readlines_split {l : List Char} (hnl : '\n' ∉ l) (rest : List Char) :
    readlines (l ++ '\n' :: rest) = (l ++ ['\n']) :: readlines rest := by
  induction l with
  | nil => rw [List.nil_append, readlines, if_pos rfl]; rfl
  | cons c l' ih =>
    have hc : ¬(c = '\n') := fun hc => hnl (hc ▸ List.mem_cons_self c l')
    have hnl' : '\n' ∉ l' := fun hm => hnl (List.mem_cons_of_mem _ hm)
    rw [List.cons_append, readlines, if_neg hc, ih hnl']
    rfl

lemma scanTokens_line {l : List Char} (hnl : '\n' ∉ l) :
    scanTokens (l ++ ['\n']) = scanTokens l := by
  have h := scanTokens_append_nl l.length l [] (le_refl _) hnl
  simpa [show scanTokens [] = [] from rfl] using h

lemma flatMap_readlines :
    ∀ (n : Nat) (s : List Char), s.length ≤ n →
      (readlines s).flatMap scanTokens = scanTokens s := by
  intro n
  induction n with
  | zero =>
    intro s h1
    have hs : s = [] := List.length_eq_zero.mp (Nat.le_zero.mp h1)
    subst hs
    rfl
  | succ n ih =>
    intro s hl
    cases hdw : s.dropWhile (fun c => c != '\n') with
    | nil =>
      have hall := dropWhile_nil_forall hdw
      have hnl : '\n' ∉ s := fun hm => by simpa using hall _ hm
      rw [readlines_no_nl hnl]
      cases s with
      | nil => rfl
      | cons c rest => simp
    | cons q tl =>
      have hq : q = '\n' := by
        have := dropWhile_head_false hdw
        simpa using this
      subst hq
      have hdecomp : s.takeWhile (fun c => c != '\n') ++ '\n' :: tl = s := by
        rw [← hdw]
        exact List.takeWhile_append_dropWhile _ _
      have hnl : '\n' ∉ s.takeWhile (fun c => c != '\n') := fun hm => by
        simpa using List.mem_takeWhile_imp hm
      have hlen : tl.length ≤ n := by
        have := congrArg List.length hdecomp
        simp only [List.length_append, List.length_cons] at this
        omega
      rw [← hdecomp, readlines_split hnl tl]
      rw [List.flatMap_cons, scanTokens_line hnl, ih tl hlen]
      exact (scanTokens_append_nl (s.takeWhile (fun c => c != '\n')).length _ tl
        (le_refl _) hnl).symm

lemma collectItems_eq (ls : List (List Char)) :
    ∀ acc, collectItems acc ls = acc ++ ls.flatMap scanTokens := by
  induction ls with
  | nil => intro acc; simp [collectItems]
  | cons line rest ih =>
    intro acc
    rw [collectItems]
    by_cases h : scanTokens line = []
    · rw [if_pos h, ih, List.flatMap_cons, h, List.nil_append]
    · rw [if_neg h, ih, List.flatMap_cons, List.append_assoc]

/-! ### Stepping lemmas for the main loop -/

lemma processUrls_cons (env : NetEnv) (args : CliArgs) (destDir : List Char)
    (s : RunState) (url : List Char) (rest : List (List Char)) :
    processUrls env args destDir s (url :: rest) =
      (match downloadFromUrl (env.fetch url) url destDir s.fs with
      | (DlResult.ok _, fs') =>
        if 0 < args.num ∧ args.num ≤ ((s.nDownloaded + 1 : Nat) : Int) then
          { s with fetchedUrls := s.fetchedUrls ++ [url],
                   nDownloaded := s.nDownloaded + 1, fs := fs', bFinished := true }
        else
          processUrls env args destDir
            { s with fetchedUrls := s.fetchedUrls ++ [url],
                     nDownloaded := s.nDownloaded + 1, fs := fs' } rest
      | (DlResult.wrongFileType, fs') =>
        processUrls env args destDir
          { s with fetchedUrls := s.fetchedUrls ++ [url],
                   nSkipped := s.nSkipped + 1, fs := fs' } rest
      | (DlResult.fileExists, fs') =>
        if args.update = true then
          { s with fetchedUrls := s.fetchedUrls ++ [url],
                   nErrors := s.nErrors + 1, fs := fs', bFinished := true }
        else
          processUrls env args destDir
            { s with fetchedUrls := s.fetchedUrls ++ [url],
                     nErrors := s.nErrors + 1, fs := fs' } rest
      | (DlResult.httpError, fs') =>
        processUrls env args destDir
          { s with fetchedUrls := s.fetchedUrls ++ [url],
                   nFailed := s.nFailed + 1, fs := fs' } rest
      | (DlResult.urlError, fs') =>
        processUrls env args destDir
          { s with fetchedUrls := s.fetchedUrls ++ [url],
                   nFailed := s.nFailed + 1, fs := fs' } rest
      | (DlResult.invalidUrl, fs') =>
        processUrls env args destDir
          { s with fetchedUrls := s.fetchedUrls ++ [url],
                   nFailed := s.nFailed + 1, fs := fs' } rest) := rfl

lemma processUrls_ok_step (env : NetEnv) (args : CliArgs) (destDir : List Char)
    (s : RunState) (url : List Char) (rest : List (List Char)) (fn : List Char)
    (fs' : DirState)
    (hdl : downloadFromUrl (env.fetch url) url destDir s.fs = (DlResult.ok fn, fs'))
    (hnum : args.num ≤ 0) :
    processUrls env args destDir s (url :: rest) =
      processUrls env args destDir
        { s with fetchedUrls := s.fetchedUrls ++ [url],
                 nDownloaded := s.nDownloaded + 1, fs := fs' } rest := by
  rw [processUrls_cons, hdl]
  exact if_neg (by rintro ⟨h1, -⟩; omega)

lemma processUrls_ok_finish (env : NetEnv) (args : CliArgs) (destDir : List Char)
    (s : RunState) (url : List Char) (rest : List (List Char)) (fn : List Char)
    (fs' : DirState)
    (hdl : downloadFromUrl (env.fetch url) url destDir s.fs = (DlResult.ok fn, fs'))
    (hnum : 0 < args.num) (hreach : args.num ≤ (s.nDownloaded : Int) + 1) :
    processUrls env args destDir s (url :: rest) =
      { s with fetchedUrls := s.fetchedUrls ++ [url],
               nDownloaded := s.nDownloaded + 1, fs := fs', bFinished := true } := by
  rw [processUrls_cons, hdl]
  exact if_pos ⟨hnum, by push_cast; omega⟩

lemma processUrls_dup_stop (env : NetEnv) (args : CliArgs) (destDir : List Char)
    (s : RunState) (url : List Char) (rest : List (List Char)) (fs' : DirState)
    (hdl : downloadFromUrl (env.fetch url) url destDir s.fs = (DlResult.fileExists, fs'))
    (hupd : args.update = true) :
    processUrls env args destDir s (url :: rest) =
      { s with fetchedUrls := s.fetchedUrls ++ [url],
               nErrors := s.nErrors + 1, fs := fs', bFinished := true } := by
  rw [processUrls_cons, hdl]
  exact if_pos hupd

lemma processPost_accept (env : NetEnv) (args : CliArgs) (destDir : List Char)
    (s : RunState) (p : FeedItem) (hf : filterReject args p = false) :
    processPost env args destDir s p =
      processUrls env args destDir
        { s with nTotal := s.nTotal + 1,
                 resolvedPosts := s.resolvedPosts ++ [p.id] } (extractUrlsEnv env p.url) := by
  rw [processPost, if_neg (by rw [hf]; exact Bool.false_ne_true)]

lemma processPost_reject (env : NetEnv) (args : CliArgs) (destDir : List Char)
    (s : RunState) (p : FeedItem) (hf : filterReject args p = true) :
    processPost env args destDir s p =
      { s with nTotal := s.nTotal + 1, nSkipped := s.nSkipped + 1 } := by
  rw [processPost, if_pos hf]

lemma processPosts_cons_stop (env : NetEnv) (args : CliArgs) (destDir : List Char)
    (s : RunState) (p : FeedItem) (rest : List FeedItem)
    (hfin : (processPost env args destDir s p).bFinished = true) :
    processPosts env args destDir s (p :: rest) =
      { processPost env args destDir s p with lastId := p.id } := by
  rw [processPosts]
  exact if_pos hfin

lemma processPosts_cons_go (env : NetEnv) (args : CliArgs) (destDir : List Char)
    (s : RunState) (p : FeedItem) (rest : List FeedItem)
    (hfin : (processPost env args destDir s p).bFinished = false) :
    processPosts env args destDir s (p :: rest) =
      processPosts env args destDir
        { processPost env args destDir s p with lastId := p.id } rest := by
  rw [processPosts]
  exact if_neg (by rw [show ({ processPost env args destDir s p with
    lastId := p.id } : RunState).bFinished = false from hfin]; exact Bool.false_ne_true)

lemma runLoop_finished (env : NetEnv) (args : CliArgs) (destDir : List Char) :
    ∀ (fuel : Nat) (s : RunState), s.bFinished = true → runLoop env args destDir fuel s = s
  | 0, _, _ => rfl
  | fuel + 1, s, h => by rw [runLoop, if_pos h]

lemma runLoop_step (env : NetEnv) (args : CliArgs) (destDir : List Char)
    (fuel : Nat) (s : RunState) (hfin : s.bFinished = false)
    (p : FeedItem) (rest : List FeedItem)
    (hpage : env.getitems s.lastId = p :: rest) :
    runLoop env args destDir (fuel + 1) s =
      runLoop env args destDir fuel (processPosts env args destDir s (p :: rest)) := by
  rw [runLoop, if_neg (by rw [hfin]; exact Bool.false_ne_true), hpage]

/-! ### Claim theorems -/

/-- Claim C1: `_extractImgurAlbumUrls` returns the empty sequence for
every response whose declared content type is present and does not
start with `text/html`; and, being a total function of the response, it
never raises for any response body (any malformed page). -/
theorem galleryExpander_nonHtml_empty (resp : HttpResponse) (ct : List Char)
    (hct : resp.contentType = some ct)
    (hn : ("text/html").toList.isPrefixOf ct = false) :
    extractImgurAlbumUrls resp = [] := by
  have hguard : nonHtmlDeclared resp.contentType = true := by
    rw [hct]
    show (!(("text/html").toList.isPrefixOf ct)) = true
    rw [hn]
    rfl
  rw [extractImgurAlbumUrls, if_pos hguard]

/-- Witness for C1 at a concrete PNG response with a non-empty body. -/
theorem galleryExpander_nonHtml_empty_witness :
    extractImgurAlbumUrls ⟨some (("image/png").toList), ("junk body").toList⟩ = [] :=
  galleryExpander_nonHtml_empty _ (("image/png").toList) rfl (by decide)

/-- Claim C8: when the declared content type of the fetched gallery
page indicates HTML, `_extractImgurAlbumUrls` returns exactly the URL
`http://i.imgur.com/<token>.jpg` for every token captured by the
`"hash":"<token>"` pattern, in the order the tokens are encountered in
the document (a single left-to-right scan of the body), duplicates
included. -/
theorem galleryExpander_album_urls (resp : HttpResponse) (ct : List Char)
    (hct : resp.contentType = some ct)
    (hhtml : ("text/html").toList.isPrefixOf ct = true) :
    extractImgurAlbumUrls resp = (scanTokens resp.body).map mkImgurUrl := by
  have hguard : nonHtmlDeclared resp.contentType = false := by
    rw [hct]
    show (!(("text/html").toList.isPrefixOf ct)) = false
    rw [hhtml]
    rfl
  rw [extractImgurAlbumUrls, if_neg (by rw [hguard]; exact Bool.false_ne_true)]
  rw [collectItems_eq, List.nil_append,
    flatMap_readlines resp.body.length resp.body (le_refl _)]

/-- Witness for C8: an HTML page containing the same hash twice, on two
lines, yields the two synthesized URLs in order. -/
theorem galleryExpander_album_urls_witness :
    extractImgurAlbumUrls
        ⟨some (("text/html").toList),
          ("x \"hash\":\"Ab1\" y\n\"hash\":\"cc\",\"hash\":\"Ab1\"").toList⟩ =
      (scanTokens (("x \"hash\":\"Ab1\" y\n\"hash\":\"cc\",\"hash\":\"Ab1\"").toList)).map
        mkImgurUrl ∧
    extractImgurAlbumUrls
        ⟨some (("text/html").toList),
          ("x \"hash\":\"Ab1\" y\n\"hash\":\"cc\",\"hash\":\"Ab1\"").toList⟩ =
      [("http://i.imgur.com/Ab1.jpg").toList, ("http://i.imgur.com/cc.jpg").toList,
        ("http://i.imgur.com/Ab1.jpg").toList] :=
  ⟨galleryExpander_album_urls _ (("text/html").toList) rfl (by decide), by decide⟩

/-- Counterexample to claim C2 as stated: `url.replace('.png', '.jpg')`
replaces every occurrence of `.png`, not only the final extension, so
the imgur URL `http://i.imgur.com/a.png.png` resolves to
`.../a.jpg.jpg` and not to `.../a.png.jpg`, the URL with `.jpg`
substituted for its `.png` extension. -/
theorem linkResolver_png_counterexample :
    extractUrls (fun _ => []) (("http://i.imgur.com/a.png.png").toList) =
        [("http://i.imgur.com/a.jpg.jpg").toList] ∧
      extractUrls (fun _ => []) (("http://i.imgur.com/a.png.png").toList) ≠
        [("http://i.imgur.com/a.png.jpg").toList] :=
  ⟨by decide, by decide⟩

/-- Claim C2 (amended): for every non-album URL on the imgur domain the
resolver returns a singleton; if the URL ends in `.png` the element is
the URL with every occurrence of `.png` replaced by `.jpg`; otherwise,
if the URL's basename has no extension (leading dots of the basename do
not begin an extension), the element is the URL with `.jpg` appended;
otherwise — in particular for a URL ending in `.jpg`, `.jpeg` or `.gif`
whose basename carries it as a real extension — the element is the
unchanged URL. -/
theorem linkResolver_imgur_amended (expandAlbum : List Char → List (List Char))
    (url : List Char)
    (himg : hasSubstr ("imgur.com").toList url = true)
    (hgal : hasSubstr ("imgur.com/a/").toList url = false) :
    ((".png").toList.isSuffixOf url = true →
      extractUrls expandAlbum url = [replaceAll (".png").toList (".jpg").toList url]) ∧
    ((".png").toList.isSuffixOf url = false → (splitext (basename url)).2 = [] →
      extractUrls expandAlbum url = [url ++ (".jpg").toList]) ∧
    ((".png").toList.isSuffixOf url = false → (splitext (basename url)).2 ≠ [] →
      extractUrls expandAlbum url = [url]) := by
  have hbase : extractUrls expandAlbum url = processImgurUrl expandAlbum url := by
    rw [extractUrls, if_pos himg]
  have hnoalb : processImgurUrl expandAlbum url =
      (if ((".png").toList.isSuffixOf url) = true then
        [replaceAll (".png").toList (".jpg").toList url]
      else if (splitext (basename url)).2 = [] then [url ++ (".jpg").toList]
      else [url]) := by
    rw [processImgurUrl, if_neg (by rw [hgal]; exact Bool.false_ne_true)]
  refine ⟨fun hpng => ?_, fun hpng hext => ?_, fun hpng hext => ?_⟩
  · rw [hbase, hnoalb, if_pos hpng]
  · rw [hbase, hnoalb, if_neg (by rw [hpng]; exact Bool.false_ne_true), if_pos hext]
  · rw [hbase, hnoalb, if_neg (by rw [hpng]; exact Bool.false_ne_true), if_neg hext]

/-- Witness for amended C2, second clause: an extension-less imgur URL
gains `.jpg`. -/
theorem linkResolver_imgur_amended_witness :
    hasSubstr ("imgur.com").toList (("http://i.imgur.com/abc").toList) = true ∧
    extractUrls (fun _ => []) (("http://i.imgur.com/abc").toList) =
      [("http://i.imgur.com/abc").toList ++ (".jpg").toList] :=
  ⟨by decide,
    (linkResolver_imgur_amended (fun _ => []) (("http://i.imgur.com/abc").toList)
      (by decide) (by decide)).2.1 (by decide) (by decide)⟩

/-- Claim C3: a URL that is neither a gallery link nor hosted on the
imgur domain is returned unchanged as the sole element. -/
theorem linkResolver_passthrough (expandAlbum : List Char → List (List Char))
    (url : List Char)
    (hgal : hasSubstr ("imgur.com/a/").toList url = false)
    (himg : hasSubstr ("imgur.com").toList url = false) :
    extractUrls expandAlbum url = [url] := by
  rw [extractUrls, if_neg (by rw [himg]; exact Bool.false_ne_true)]

/-- Witness for C3 at a concrete non-imgur URL. -/
theorem linkResolver_passthrough_witness :
    hasSubstr ("imgur.com").toList (("http://example.com/x.jpg").toList) = false ∧
    extractUrls (fun _ => []) (("http://example.com/x.jpg").toList) =
      [("http://example.com/x.jpg").toList] :=
  ⟨by decide,
    linkResolver_passthrough (fun _ => []) (("http://example.com/x.jpg").toList)
      (by decide) (by decide)⟩

/-- Claim C5: `_downloadFromUrl` raises `WrongFileTypeException` if and
only if the resolved type — the declared content-type header when
present (taking precedence over the URL extension), else the type
inferred from the URL extension, else `unknown` — is not one of the
accepted image types. -/
theorem contentFetcher_wrongType_iff (resp : HttpResponse) (url destDir : List Char)
    (fs : DirState) :
    (downloadFromUrl (.response resp) url destDir fs).1 = DlResult.wrongFileType ↔
      acceptedTypes.contains (resolvedFiletype resp.contentType url) = false := by
  show ((if acceptedTypes.contains (resolvedFiletype resp.contentType url) = true then
      if dirHasPath fs (pathJoin destDir (basename url)) = true then
        ((DlResult.fileExists, fs) : DlResult × DirState)
      else (DlResult.ok (pathJoin destDir (basename url)),
        (pathJoin destDir (basename url), resp.body) :: fs)
    else (DlResult.wrongFileType, fs)).1 = DlResult.wrongFileType) ↔ _
  by_cases hacc : acceptedTypes.contains (resolvedFiletype resp.contentType url) = true
  · rw [if_pos hacc, hacc]
    by_cases hex : dirHasPath fs (pathJoin destDir (basename url)) = true
    · rw [if_pos hex]
      simp
    · rw [if_neg hex]
      simp
  · have hacc' : acceptedTypes.contains (resolvedFiletype resp.contentType url) = false :=
      by simpa using hacc
    rw [if_neg hacc, hacc']
    simp

/-- Claim C9: when a call to `_downloadFromUrl` succeeds, a second call
with the same URL, destination and response, run against the directory
the first call produced, raises `FileExistsException` (and leaves the
directory as it was). -/
theorem fetch_twice_already_downloaded (resp : HttpResponse) (url destDir fn : List Char)
    (fs fs' : DirState)
    (h1 : downloadFromUrl (.response resp) url destDir fs = (DlResult.ok fn, fs')) :
    downloadFromUrl (.response resp) url destDir fs' = (DlResult.fileExists, fs') := by
  have hred : ∀ (g : DirState), downloadFromUrl (.response resp) url destDir g =
      (if acceptedTypes.contains (resolvedFiletype resp.contentType url) = true then
        if dirHasPath g (pathJoin destDir (basename url)) = true then
          ((DlResult.fileExists, g) : DlResult × DirState)
        else (DlResult.ok (pathJoin destDir (basename url)),
          (pathJoin destDir (basename url), resp.body) :: g)
      else (DlResult.wrongFileType, g)) := fun _ => rfl
  rw [hred] at h1
  rw [hred]
  by_cases hacc : acceptedTypes.contains (resolvedFiletype resp.contentType url) = true
  · rw [if_pos hacc] at h1
    rw [if_pos hacc]
    by_cases hex : dirHasPath fs (pathJoin destDir (basename url)) = true
    · rw [if_pos hex] at h1
      simp at h1
    · rw [if_neg hex] at h1
      have hfs : (pathJoin destDir (basename url), resp.body) :: fs = fs' :=
        (Prod.mk.injEq _ _ _ _ ▸ h1).2
      have hhas : dirHasPath fs' (pathJoin destDir (basename url)) = true := by
        rw [← hfs]
        simp [dirHasPath]
      rw [if_pos hhas]
  · rw [if_neg hacc] at h1
    simp at h1

/-- Witness for C9: a first download into a directory already holding
the file raises; concretely, downloading `a.jpg` into a directory that
contains `dl/a.jpg` after a successful first call. -/
theorem fetch_twice_already_downloaded_witness :
    downloadFromUrl (.response jpegResp) (("http://example.com/a.jpg").toList) destDl
        [(("dl/a.jpg").toList, [])] =
      (DlResult.fileExists, [(("dl/a.jpg").toList, [])]) :=
  fetch_twice_already_downloaded jpegResp (("http://example.com/a.jpg").toList) destDl
    (("dl/a.jpg").toList) [] [(("dl/a.jpg").toList, [])] (by decide)

/-- Claim C10: whenever `_downloadFromUrl` raises
`WrongFileTypeException` or `FileExistsException`, the destination
directory is unchanged — the write happens only after both the type
check and the existence check have passed. -/
theorem fetcher_error_frame (r : FetchResult) (url destDir : List Char) (fs : DirState)
    (h : (downloadFromUrl r url destDir fs).1 = DlResult.wrongFileType ∨
         (downloadFromUrl r url destDir fs).1 = DlResult.fileExists) :
    (downloadFromUrl r url destDir fs).2 = fs := by
  cases r with
  | httpError => rfl
  | urlError => rfl
  | invalidUrl => rfl
  | response resp =>
    have hred : downloadFromUrl (.response resp) url destDir fs =
        (if acceptedTypes.contains (resolvedFiletype resp.contentType url) = true then
          if dirHasPath fs (pathJoin destDir (basename url)) = true then
            ((DlResult.fileExists, fs) : DlResult × DirState)
          else (DlResult.ok (pathJoin destDir (basename url)),
            (pathJoin destDir (basename url), resp.body) :: fs)
        else (DlResult.wrongFileType, fs)) := rfl
    rw [hred] at h ⊢
    by_cases hacc : acceptedTypes.contains (resolvedFiletype resp.contentType url) = true
    · rw [if_pos hacc] at h ⊢
      by_cases hex : dirHasPath fs (pathJoin destDir (basename url)) = true
      · rw [if_pos hex]
      · rw [if_neg hex] at h
        simp at h
    · rw [if_neg hacc]

/-- Witness for C10: a text/html response is rejected and the directory
stays empty. -/
theorem fetcher_error_frame_witness :
    (downloadFromUrl (.response ⟨some (("text/html").toList), []⟩)
        (("http://example.com/a.jpg").toList) destDl []).2 = [] :=
  fetcher_error_frame (.response ⟨some (("text/html").toList), []⟩)
    (("http://example.com/a.jpg").toList) destDl [] (Or.inl (by decide))

lemma processPosts_filtered_not_finished (env : NetEnv) (args : CliArgs)
    (destDir : List Char) :
    ∀ (ps : List FeedItem) (s : RunState), s.bFinished = false →
      (∀ p ∈ ps, filterReject args p = true) →
      (processPosts env args destDir s ps).bFinished = false := by
  intro ps
  induction ps with
  | nil =>
    intro s hfin _
    exact hfin
  | cons p rest ih =>
    intro s hfin hall
    have hp : filterReject args p = true := hall p (List.mem_cons_self _ _)
    have hpp := processPost_reject env args destDir s p hp
    have hfin' : (processPost env args destDir s p).bFinished = false := by
      rw [hpp]
      exact hfin
    rw [processPosts_cons_go env args destDir s p rest hfin']
    exact ih { processPost env args destDir s p with lastId := p.id } hfin'
      (fun q hq => hall q (List.mem_cons_of_mem _ hq))

lemma processPosts_complete_lastId (env : NetEnv) (args : CliArgs) (destDir : List Char) :
    ∀ (ps : List FeedItem) (s : RunState) (pLast : FeedItem),
      ps.getLast? = some pLast →
      (processPosts env args destDir s ps).bFinished = false →
      (processPosts env args destDir s ps).lastId = pLast.id := by
  intro ps
  induction ps with
  | nil =>
    intro s pLast h _
    simp at h
  | cons p rest ih =>
    intro s pLast hlast hdone
    cases hb : (processPost env args destDir s p).bFinished with
    | true =>
      rw [processPosts_cons_stop env args destDir s p rest hb] at hdone
      have hcontra : (processPost env args destDir s p).bFinished = false := hdone
      rw [hb] at hcontra
      simp at hcontra
    | false =>
      rw [processPosts_cons_go env args destDir s p rest hb] at hdone ⊢
      cases rest with
      | nil =>
        obtain rfl : p = pLast := by
          rw [List.getLast?_singleton] at hlast
          injection hlast
        rfl
      | cons q rest' =>
        rw [List.getLast?_cons_cons] at hlast
        exact ih { processPost env args destDir s p with lastId := p.id } pLast hlast hdone

/-- Counterexample to claim C4 as stated for every processed page: when
a stop condition cuts a page short, `lastId = post['id']` leaves the
cursor on the stopping item's id, not on the page's last item's id.
Concretely, under `--num 1` the page `[postA, postB]` stops at `postA`
and the cursor ends on `postA.id`, while the page's last item is
`postB`, whose id differs. -/
theorem feedWalker_cursor_counterexample :
    (processPosts envNum1 argsNum1 destDl (initState argsNum1 []) [postA, postB]).lastId =
        postA.id ∧
      [postA, postB].getLast? = some postB ∧
      postA.id ≠ postB.id ∧
      (processPosts envNum1 argsNum1 destDl (initState argsNum1 []) [postA, postB]).lastId ≠
        postB.id := by
  refine ⟨by decide, rfl, by decide, by decide⟩

/-- Claim C4 (amended): after processing a non-empty fetched page that
does not trigger a stop condition, the cursor equals the id of the
page's last item; in particular, when every item of the page was
rejected by the filters no stop can trigger, and the cursor lands on
the last item's id with the run unfinished, so pagination always
advances.  When a stop condition does end the run mid-page, the cursor
is left on the id of the item being processed and is never read
again. -/
theorem feedWalker_cursor_advances (env : NetEnv) (args : CliArgs) (destDir : List Char)
    (ps : List FeedItem) (s : RunState) (pLast : FeedItem)
    (hlast : ps.getLast? = some pLast) (hfin : s.bFinished = false) :
    ((processPosts env args destDir s ps).bFinished = false →
      (processPosts env args destDir s ps).lastId = pLast.id) ∧
      ((∀ p ∈ ps, filterReject args p = true) →
        (processPosts env args destDir s ps).lastId = pLast.id ∧
          (processPosts env args destDir s ps).bFinished = false) := by
  refine ⟨fun hdone => processPosts_complete_lastId env args destDir ps s pLast hlast hdone,
    fun hall => ?_⟩
  have hnf := processPosts_filtered_not_finished env args destDir ps s hfin hall
  exact ⟨processPosts_complete_lastId env args destDir ps s pLast hlast hnf, hnf⟩

/-- Witness for amended C4: a page of two items, both below `--score 5`,
leaves the cursor on the second item's id and the run unfinished. -/
theorem feedWalker_cursor_advances_witness :
    (processPosts envNum1 argsScore5 destDl (initState argsScore5 []) [postB, postC]).lastId =
        postC.id ∧
      (processPosts envNum1 argsScore5 destDl
          (initState argsScore5 []) [postB, postC]).bFinished = false :=
  (feedWalker_cursor_advances envNum1 argsScore5 destDl [postB, postC]
    (initState argsScore5 []) postC rfl rfl).2 (by decide)

/-- Claim C6: when a successful download makes the downloaded counter
reach a configured positive target count, the run finishes immediately:
the current item's remaining URLs are dropped, no later item of the
page is resolved or downloaded, no further page is fetched, and the
cursor rests on the current item's id. -/
theorem run_stops_at_target_count (env : NetEnv) (args : CliArgs) (destDir : List Char)
    (s0 : RunState) (p1 : FeedItem) (morePosts : List FeedItem) (u1 : List Char)
    (moreUrls : List (List Char)) (fn : List Char) (fs1 : DirState) (fuel : Nat)
    (hfin : s0.bFinished = false)
    (hpage : env.getitems s0.lastId = p1 :: morePosts)
    (hf1 : filterReject args p1 = false)
    (hurls : extractUrlsEnv env p1.url = u1 :: moreUrls)
    (hdl : downloadFromUrl (env.fetch u1) u1 destDir s0.fs = (DlResult.ok fn, fs1))
    (hnum : 0 < args.num)
    (hreach : args.num ≤ (s0.nDownloaded : Int) + 1) :
    (runLoop env args destDir (fuel + 1) s0).bFinished = true ∧
    (runLoop env args destDir (fuel + 1) s0).nDownloaded = s0.nDownloaded + 1 ∧
    (runLoop env args destDir (fuel + 1) s0).resolvedPosts = s0.resolvedPosts ++ [p1.id] ∧
    (runLoop env args destDir (fuel + 1) s0).fetchedUrls = s0.fetchedUrls ++ [u1] ∧
    (runLoop env args destDir (fuel + 1) s0).lastId = p1.id := by
  have hpost : processPost env args destDir s0 p1 =
      { s0 with nTotal := s0.nTotal + 1,
                resolvedPosts := s0.resolvedPosts ++ [p1.id],
                fetchedUrls := s0.fetchedUrls ++ [u1],
                nDownloaded := s0.nDownloaded + 1,
                fs := fs1, bFinished := true } := by
    rw [processPost_accept env args destDir s0 p1 hf1, hurls,
      processUrls_ok_finish env args destDir
        { s0 with nTotal := s0.nTotal + 1,
                  resolvedPosts := s0.resolvedPosts ++ [p1.id] }
        u1 moreUrls fn fs1 hdl hnum hreach]
  have hposts : processPosts env args destDir s0 (p1 :: morePosts) =
      { s0 with nTotal := s0.nTotal + 1,
                resolvedPosts := s0.resolvedPosts ++ [p1.id],
                fetchedUrls := s0.fetchedUrls ++ [u1],
                nDownloaded := s0.nDownloaded + 1,
                fs := fs1, bFinished := true, lastId := p1.id } := by
    rw [processPosts_cons_stop env args destDir s0 p1 morePosts (by rw [hpost]), hpost]
  have hrun : runLoop env args destDir (fuel + 1) s0 =
      { s0 with nTotal := s0.nTotal + 1,
                resolvedPosts := s0.resolvedPosts ++ [p1.id],
                fetchedUrls := s0.fetchedUrls ++ [u1],
                nDownloaded := s0.nDownloaded + 1,
                fs := fs1, bFinished := true, lastId := p1.id } := by
    rw [runLoop_step env args destDir fuel s0 hfin p1 morePosts hpage, hposts,
      runLoop_finished env args destDir fuel _ rfl]
  rw [hrun]
  exact ⟨rfl, rfl, rfl, rfl, rfl⟩

/-- Witness for C6: `--num 1` with a page of two qualifying items, each
resolving to one JPEG URL; the run downloads the first and stops, the
second item is never resolved. -/
theorem run_stops_at_target_count_witness :
    (runLoop envNum1 argsNum1 destDl 1 (initState argsNum1 [])).bFinished = true ∧
    (runLoop envNum1 argsNum1 destDl 1 (initState argsNum1 [])).nDownloaded =
      (initState argsNum1 []).nDownloaded + 1 ∧
    (runLoop envNum1 argsNum1 destDl 1 (initState argsNum1 [])).resolvedPosts =
      (initState argsNum1 []).resolvedPosts ++ [postA.id] ∧
    (runLoop envNum1 argsNum1 destDl 1 (initState argsNum1 [])).fetchedUrls =
      (initState argsNum1 []).fetchedUrls ++ [postA.url] ∧
    (runLoop envNum1 argsNum1 destDl 1 (initState argsNum1 [])).lastId = postA.id :=
  run_stops_at_target_count envNum1 argsNum1 destDl (initState argsNum1 []) postA [postB]
    postA.url [] (("dl/a.jpg").toList) [((("dl/a.jpg").toList), [])] 0 rfl rfl
    (by decide) (by decide) (by decide) (by decide) (by decide)

/-- Claim C7: in update mode the first duplicate stops the run at once.
If the first two URLs of an item download successfully and the third
raises `FileExistsException`, the duplicate-error counter rises by one,
exactly the two downloads are counted as successes, the item's
remaining URLs are dropped, and no later item is resolved or
downloaded. -/
theorem update_stops_on_duplicate (env : NetEnv) (args : CliArgs) (destDir : List Char)
    (s0 : RunState) (p1 : FeedItem) (morePosts : List FeedItem)
    (u1 u2 u3 : List Char) (moreUrls : List (List Char))
    (f1 f2 : List Char) (fs1 fs2 fs3 : DirState) (fuel : Nat)
    (hupd : args.update = true)
    (hnum : args.num ≤ 0)
    (hfin : s0.bFinished = false)
    (hpage : env.getitems s0.lastId = p1 :: morePosts)
    (hf1 : filterReject args p1 = false)
    (hurls : extractUrlsEnv env p1.url = u1 :: u2 :: u3 :: moreUrls)
    (hdl1 : downloadFromUrl (env.fetch u1) u1 destDir s0.fs = (DlResult.ok f1, fs1))
    (hdl2 : downloadFromUrl (env.fetch u2) u2 destDir fs1 = (DlResult.ok f2, fs2))
    (hdl3 : downloadFromUrl (env.fetch u3) u3 destDir fs2 = (DlResult.fileExists, fs3)) :
    (runLoop env args destDir (fuel + 1) s0).bFinished = true ∧
    (runLoop env args destDir (fuel + 1) s0).nDownloaded = s0.nDownloaded + 2 ∧
    (runLoop env args destDir (fuel + 1) s0).nErrors = s0.nErrors + 1 ∧
    (runLoop env args destDir (fuel + 1) s0).fetchedUrls = s0.fetchedUrls ++ [u1, u2, u3] ∧
    (runLoop env args destDir (fuel + 1) s0).resolvedPosts = s0.resolvedPosts ++ [p1.id] ∧
    (runLoop env args destDir (fuel + 1) s0).lastId = p1.id := by
  have hpost : processPost env args destDir s0 p1 =
      { s0 with nTotal := s0.nTotal + 1,
                resolvedPosts := s0.resolvedPosts ++ [p1.id],
                fetchedUrls := s0.fetchedUrls ++ [u1] ++ [u2] ++ [u3],
                nDownloaded := s0.nDownloaded + 1 + 1,
                nErrors := s0.nErrors + 1,
                fs := fs3, bFinished := true } := by
    rw [processPost_accept env args destDir s0 p1 hf1, hurls,
      processUrls_ok_step env args destDir
        { s0 with nTotal := s0.nTotal + 1,
                  resolvedPosts := s0.resolvedPosts ++ [p1.id] }
        u1 (u2 :: u3 :: moreUrls) f1 fs1 hdl1 hnum,
      processUrls_ok_step env args destDir
        { s0 with nTotal := s0.nTotal + 1,
                  resolvedPosts := s0.resolvedPosts ++ [p1.id],
                  fetchedUrls := s0.fetchedUrls ++ [u1],
                  nDownloaded := s0.nDownloaded + 1, fs := fs1 }
        u2 (u3 :: moreUrls) f2 fs2 hdl2 hnum,
      processUrls_dup_stop env args destDir
        { s0 with nTotal := s0.nTotal + 1,
                  resolvedPosts := s0.resolvedPosts ++ [p1.id],
                  fetchedUrls := s0.fetchedUrls ++ [u1] ++ [u2],
                  nDownloaded := s0.nDownloaded + 1 + 1, fs := fs2 }
        u3 moreUrls fs3 hdl3 hupd]
  have hposts : processPosts env args destDir s0 (p1 :: morePosts) =
      { s0 with nTotal := s0.nTotal + 1,
                resolvedPosts := s0.resolvedPosts ++ [p1.id],
                fetchedUrls := s0.fetchedUrls ++ [u1] ++ [u2] ++ [u3],
                nDownloaded := s0.nDownloaded + 1 + 1,
                nErrors := s0.nErrors + 1,
                fs := fs3, bFinished := true, lastId := p1.id } := by
    rw [processPosts_cons_stop env args destDir s0 p1 morePosts (by rw [hpost]), hpost]
  have hrun : runLoop env args destDir (fuel + 1) s0 =
      { s0 with nTotal := s0.nTotal + 1,
                resolvedPosts := s0.resolvedPosts ++ [p1.id],
                fetchedUrls := s0.fetchedUrls ++ [u1] ++ [u2] ++ [u3],
                nDownloaded := s0.nDownloaded + 1 + 1,
                nErrors := s0.nErrors + 1,
                fs := fs3, bFinished := true, lastId := p1.id } := by
    rw [runLoop_step env args destDir fuel s0 hfin p1 morePosts hpage, hposts,
      runLoop_finished env args destDir fuel _ rfl]
  rw [hrun]
  refine ⟨rfl, rfl, rfl, ?_, rfl, rfl⟩
  show s0.fetchedUrls ++ [u1] ++ [u2] ++ [u3] = s0.fetchedUrls ++ [u1, u2, u3]
  simp

/-- Witness for C7: in update mode, an album item resolving to four
URLs whose third target file already exists; the run downloads two
files, counts one duplicate, stops, and the page's second item is never
resolved. -/
theorem update_stops_on_duplicate_witness :
    (runLoop envUpdate argsUpdate destDl 1 (initState argsUpdate fsSeed)).bFinished = true ∧
    (runLoop envUpdate argsUpdate destDl 1 (initState argsUpdate fsSeed)).nDownloaded =
      (initState argsUpdate fsSeed).nDownloaded + 2 ∧
    (runLoop envUpdate argsUpdate destDl 1 (initState argsUpdate fsSeed)).nErrors =
      (initState argsUpdate fsSeed).nErrors + 1 ∧
    (runLoop envUpdate argsUpdate destDl 1 (initState argsUpdate fsSeed)).fetchedUrls =
      (initState argsUpdate fsSeed).fetchedUrls ++
        [("http://i.imgur.com/h1.jpg").toList, ("http://i.imgur.com/h2.jpg").toList,
          ("http://i.imgur.com/h3.jpg").toList] ∧
    (runLoop envUpdate argsUpdate destDl 1 (initState argsUpdate fsSeed)).resolvedPosts =
      (initState argsUpdate fsSeed).resolvedPosts ++ [postAlbum.id] ∧
    (runLoop envUpdate argsUpdate destDl 1 (initState argsUpdate fsSeed)).lastId =
      postAlbum.id :=
  update_stops_on_duplicate envUpdate argsUpdate destDl (initState argsUpdate fsSeed)
    postAlbum [postB]
    (("http://i.imgur.com/h1.jpg").toList) (("http://i.imgur.com/h2.jpg").toList)
    (("http://i.imgur.com/h3.jpg").toList) [(("http://i.imgur.com/h4.jpg").toList)]
    (("dl/h1.jpg").toList) (("dl/h2.jpg").toList)
    [((("dl/h1.jpg").toList), []), ((("dl/h3.jpg").toList), [])]
    [((("dl/h2.jpg").toList), []), ((("dl/h1.jpg").toList), []),
      ((("dl/h3.jpg").toList), [])]
    [((("dl/h2.jpg").toList), []), ((("dl/h1.jpg").toList), []),
      ((("dl/h3.jpg").toList), [])]
    0 rfl (by decide) rfl rfl (by decide) (by decide) (by decide) (by decide) (by decide)
